import Mathlib

/-!
Shallow embedding of `src/shared/modules/message-checker.js` (the later
revision, lines 232-493): the fingerprinting and risk-assessment engine of
the Web3 sign-in message checker, together with theorems settling the
frozen claims about it.

Strings are modelled as `List Char` (`Str`); JS objects used as
string-keyed maps are modelled as association lists, whose order is the
iteration order of the object; JS exceptions of `generateFingerprint`
become an `Except` value.
-/

set_option maxRecDepth 4000

abbrev Str := List Char

abbrev Token := Str

abbrev Fingerprint := List Token

/-- The `_nonce_` placeholder token. -/
def nonceTok : Token := "_nonce_".toList

/-- The `_address_` placeholder token. -/
def addressTok : Token := "_address_".toList

/-- JS whitespace class, the characters matched by `/\s/`, by code point:
tab, line feed, vertical tab, form feed, carriage return, space, no-break
space, ogham space mark, the U+2000 to U+200A range, line and paragraph
separators, narrow no-break space, medium mathematical space, ideographic
space and the byte-order mark. -/
def isWs (c : Char) : Bool :=
  c == '\t' || c == '\n' || c.val == 11 || c.val == 12 || c == '\r' || c == ' ' ||
  c.val == 0xa0 || c.val == 0x1680 ||
  (decide (0x2000 ≤ c.val) && decide (c.val ≤ 0x200a)) ||
  c.val == 0x2028 || c.val == 0x2029 || c.val == 0x202f || c.val == 0x205f ||
  c.val == 0x3000 || c.val == 0xfeff

/-- Hex digit class of the address pattern `[a-fA-F0-9]`. -/
def isHexDigit (c : Char) : Bool :=
  ('0' ≤ c && c ≤ '9') || ('a' ≤ c && c ≤ 'f') || ('A' ≤ c && c ≤ 'F')

/-- The global regex replace of line 265: left-to-right, non-overlapping
replacement of every `0x` + exactly-40-hex-digit match by `_address_`. -/
def replaceAddr : Str → Str
  | [] => []
  | '0' :: 'x' :: rest =>
    if (rest.take 40).length == 40 && (rest.take 40).all isHexDigit then
      addressTok ++ replaceAddr (rest.drop 40)
    else
      '0' :: replaceAddr ('x' :: rest)
  | c :: rest => c :: replaceAddr rest
termination_by s => s.length
decreasing_by all_goals (simp [List.length_drop]; try omega)

/-- Worker for `message.split(/(\s+)/)`: `inWs` says whether the run being
accumulated (in `acc`, reversed) is a whitespace run. JS keeps captured
separators, so chunks of non-whitespace (possibly empty at either end)
alternate with whitespace runs. -/
def splitWsAux : Bool → List Char → List Char → List (List Char)
  | inWs, acc, [] => if inWs then [acc.reverse, []] else [acc.reverse]
  | inWs, acc, c :: cs =>
    if isWs c == inWs then
      splitWsAux inWs (c :: acc) cs
    else
      acc.reverse :: splitWsAux (isWs c) [c] cs

/-- `message.split(/(\s+)/)`: split into words, whitespace runs retained as
their own tokens. -/
def splitWs (s : Str) : List Token :=
  splitWsAux false [] s

/-- Normalization + tokenization of a raw message text: replace addresses,
then split retaining whitespace. -/
def tokenize (s : Str) : Fingerprint :=
  splitWs (replaceAddr s)

/-- An element of the input list of `generateFingerprint`: a raw message
text (string) or an already-computed fingerprint (array of words). -/
inductive MsgInput where
  | str : Str → MsgInput
  | fp : Fingerprint → MsgInput
deriving DecidableEq

/-- The `messageList.map(...)` body: a string is normalized and split, an
array passes through unchanged. -/
def toWords : MsgInput → Fingerprint
  | .str s => tokenize s
  | .fp f => f

/-- The two exceptions `generateFingerprint` can throw. -/
inductive FPError where
  | EmptyInput
  | LengthMismatch
deriving DecidableEq

/-- `generateFingerprint(messageList)` (lines 257-306). -/
def generateFingerprint (messageList : List MsgInput) : Except FPError Fingerprint :=
  match messageList.map toWords with
  | [] => .error .EmptyInput
  | [w] => .ok w
  | w :: ws =>
    if (w :: ws).any (fun words => words.length != w.length) then
      .error .LengthMismatch
    else
      .ok ((List.range w.length).map (fun i =>
        if (w :: ws).all (fun words => words.getD i [] == w.getD i []) then
          w.getD i []
        else
          nonceTok))

/-- `compareFingerprint(f1, f2)` (lines 319-341): false on length mismatch,
otherwise position-by-position with `_nonce_` on either side skipped. -/
def compareFingerprint (f1 f2 : Fingerprint) : Bool :=
  if f1.length != f2.length then
    false
  else
    (List.range f1.length).all (fun i =>
      let word1 := f1.getD i []
      let word2 := f2.getD i []
      word1 == nonceTok || word2 == nonceTok || word1 == word2)

/-- First-match association-list lookup, the model of JS `obj[key]`
(`undefined` becomes `none`). -/
def mapGet {α : Type} : List (Str × α) → Str → Option α
  | [], _ => none
  | (k, v) :: rest, key => if k = key then some v else mapGet rest key

/-- The incoming signing request `{address, message, domain, web3Name}`. -/
structure MsgRequest where
  address : Str
  message : Str
  domain : Str
  web3Name : Str
deriving DecidableEq

/-- `messageInfo`: `{address, message, createdAt, domain, web3Name, fingerprint}`. -/
structure MessageInfo where
  address : Str
  message : Str
  createdAt : Nat
  domain : Str
  web3Name : Str
  fingerprint : Fingerprint
deriving DecidableEq

/-- `web3Storage.globalFingerprints`: domain → fingerprint. -/
abbrev GlobalFPs := List (Str × Fingerprint)

/-- Per-address entry of `web3Storage.signedMessages`:
`{localFingerprints, localMessages}`. -/
structure LocalHistory where
  localFingerprints : List (Str × Fingerprint)
  localMessages : List (Nat × MessageInfo)
deriving DecidableEq

/-- `web3Storage.signedMessages`: address → local history. -/
abbrev SignedMessages := List (Str × LocalHistory)

/-- `createMessageInfo(msg, globalFingerprints)` (lines 352-375). `Date.now()`
is passed in as `now`; a thrown exception becomes `.error`. -/
def createMessageInfo (msg : MsgRequest) (globalFingerprints : GlobalFPs)
    (now : Nat) : Except FPError MessageInfo :=
  let base : MessageInfo :=
    { address := msg.address, message := msg.message, createdAt := now,
      domain := msg.domain, web3Name := msg.web3Name, fingerprint := [] }
  let messageList :=
    match mapGet globalFingerprints msg.domain with
    | some g => [MsgInput.str msg.message, MsgInput.fp g]
    | none => [MsgInput.str msg.message]
  match generateFingerprint messageList with
  | .ok f => .ok { base with fingerprint := f }
  | .error _ =>
    (generateFingerprint [MsgInput.str msg.message]).map
      (fun f => { base with fingerprint := f })

/-- A risk finding `{severity, title, body}`. -/
structure RiskFinding where
  severity : Str
  title : Str
  body : Str
deriving DecidableEq

/-- `needle` is a prefix of `hay`. -/
def strIsPrefixOf : Str → Str → Bool
  | [], _ => true
  | _ :: _, [] => false
  | a :: as, b :: bs => a == b && strIsPrefixOf as bs

/-- `hay.indexOf(needle) != -1`: some position of `hay` starts an
occurrence of `needle` (the empty needle occurs at index 0). -/
def strContains : Str → Str → Bool
  | needle, [] => strIsPrefixOf needle []
  | needle, c :: rest => strIsPrefixOf needle (c :: rest) || strContains needle rest

/-- `message.toLowerCase().indexOf(domain.toLowerCase()) != -1` (line 415). -/
def domainInMsgOf (info : MessageInfo) : Bool :=
  strContains (info.domain.map Char.toLower) (info.message.map Char.toLower)

/-- The `similarDomains` scan (lines 427-434): domains of
`globalFingerprints` other than `info.domain` whose fingerprint matches
`info.fingerprint`, in iteration order. -/
def similarDomainsOf (info : MessageInfo) (globalFingerprints : GlobalFPs) : List Str :=
  (globalFingerprints.filter (fun p =>
    p.1 != info.domain && compareFingerprint info.fingerprint p.2)).map Prod.fst

/-- The `victim_domains` scan (lines 452-457) over the `localFingerprints`
of one address. -/
def victimDomainsOf (info : MessageInfo) (hist : LocalHistory) : List Str :=
  (hist.localFingerprints.filter (fun p =>
    p.1 != info.domain && compareFingerprint info.fingerprint p.2)).map Prod.fst

/-- Joins a list of domains with a comma and a space, the model of the JS
array `join` used in the finding bodies. -/
def joinDomains : List Str → Str
  | [] => []
  | [d] => d
  | d :: rest => d ++ ", ".toList ++ joinDomains rest

/-- The info-severity phishing finding (lines 417-421). -/
def infoPhishingFinding : RiskFinding :=
  { severity := "info".toList, title := "Phishing Attack".toList,
    body := "This website has the risk of phishing attack. The message you signed does not include domain name. Please check this website".toList ++ [Char.ofNat 39] ++ "s domain name.".toList }

/-- The warning-severity phishing finding (lines 438-442). -/
def warningPhishingFinding (similarDomains : List Str) : RiskFinding :=
  { severity := "warning".toList, title := "Phishing Attack".toList,
    body := "This message is the same as other websites. This website can use your signature to log in to other websites!\n ".toList ++ joinDomains similarDomains }

/-- The danger-severity phishing finding (lines 461-465). -/
def dangerPhishingFinding (domain : Str) (victimDomains : List Str) : RiskFinding :=
  { severity := "danger".toList, title := "Phishing Attack".toList,
    body := "This is a phishing website.\n This website".toList ++ [Char.ofNat 39] ++ "s domain is ".toList ++ domain ++ ". You had signed similar messages on ".toList ++ joinDomains victimDomains ++ ". Please check this website".toList ++ [Char.ofNat 39] ++ "s domain name.".toList }

/-- The info-severity replay finding (lines 485-489). -/
def replayFinding : RiskFinding :=
  { severity := "info".toList, title := "Replay Attack".toList,
    body := "This message has the risk of replay attack, because it does not include nonce.".toList }

/-- The `else` branch of the `nonceInMsg` computation (lines 476-481):
inherit from the global fingerprint of the first similar domain; `false`
when there is none. -/
def nonceFromGlobal (info : MessageInfo) (globalFingerprints : GlobalFPs) : Bool :=
  match similarDomainsOf info globalFingerprints with
  | [] => false
  | d :: _ =>
    match mapGet globalFingerprints d with
    | some similarFingerprint => similarFingerprint.any (fun item => item == nonceTok)
    | none => false

/-- The `nonceInMsg` computation (lines 471-481). -/
def nonceInMsgOf (info : MessageInfo) (signedMessages : SignedMessages)
    (globalFingerprints : GlobalFPs) : Bool :=
  match mapGet signedMessages info.address with
  | some hist =>
    match mapGet hist.localFingerprints info.domain with
    | some _ => info.fingerprint.any (fun item => item == nonceTok)
    | none => nonceFromGlobal info globalFingerprints
  | none => nonceFromGlobal info globalFingerprints

/-- `checkMessageBeforeSign(messageInfo, signedMessages, globalFingerprints)`
(lines 399-493). `Risks.pop()` removes the last pushed element, modelled by
`List.dropLast`. -/
def checkMessageBeforeSign (messageInfo : MessageInfo)
    (signedMessages : SignedMessages) (globalFingerprints : GlobalFPs) :
    List RiskFinding :=
  let risks1 : List RiskFinding :=
    if domainInMsgOf messageInfo then [] else [infoPhishingFinding]
  let similarDomains := similarDomainsOf messageInfo globalFingerprints
  let risks2 : List RiskFinding :=
    if similarDomains.length > 0 then
      risks1.dropLast ++ [warningPhishingFinding similarDomains]
    else risks1
  let risks3 : List RiskFinding :=
    match mapGet signedMessages messageInfo.address with
    | some hist =>
      let victimDomains := victimDomainsOf messageInfo hist
      if victimDomains.length > 0 then
        risks2.dropLast ++ [dangerPhishingFinding messageInfo.domain victimDomains]
      else risks2
    | none => risks2
  if nonceInMsgOf messageInfo signedMessages globalFingerprints then
    risks3
  else
    risks3 ++ [replayFinding]

/-- The victim-domain list seen by the danger check: empty when the signer
address has no history entry. -/
def dangerVictims (info : MessageInfo) (sm : SignedMessages) : List Str :=
  match mapGet sm info.address with
  | some hist => victimDomainsOf info hist
  | none => []

/-- The phishing finding that survives an assessment (empty when no
phishing condition triggers): danger beats warning beats info. -/
def phishingVerdict (info : MessageInfo) (sm : SignedMessages) (gf : GlobalFPs) :
    List RiskFinding :=
  if dangerVictims info sm ≠ [] then
    [dangerPhishingFinding info.domain (dangerVictims info sm)]
  else if similarDomainsOf info gf ≠ [] then
    [warningPhishingFinding (similarDomainsOf info gf)]
  else if domainInMsgOf info then [] else [infoPhishingFinding]

/-! ### Tokenization lemmas -/

theorem splitWsAux_flatten (s : List Char) : ∀ (inWs : Bool) (acc : List Char),
    (splitWsAux inWs acc s).flatten = acc.reverse ++ s := by
  induction s with
  | nil =>
    intro inWs acc
    cases inWs <;> simp [splitWsAux]
  | cons c cs ih =>
    intro inWs acc
    simp only [splitWsAux]
    split
    · rw [ih]
      simp
    · simp [ih]

theorem splitWs_flatten (s : Str) : (splitWs s).flatten = s := by
  simpa using splitWsAux_flatten s false []

theorem tokenize_flatten (m : Str) : (tokenize m).flatten = replaceAddr m :=
  splitWs_flatten (replaceAddr m)

/-! ### Theorems for the claims -/

/-- C6: for every message text `m`, `generateFingerprint([m])` succeeds and
equals the token split of `m` after address-pattern replacement, with no
`_nonce_` inference, and applying `generateFingerprint` to the singleton
list containing that fingerprint returns it unchanged. -/
theorem generateFingerprint_single_literal_idempotent (m : Str) :
    generateFingerprint [MsgInput.str m] = .ok (splitWs (replaceAddr m)) ∧
    generateFingerprint [MsgInput.fp (splitWs (replaceAddr m))] =
      .ok (splitWs (replaceAddr m)) :=
  ⟨rfl, rfl⟩

/-- C8: tokenization preserves the message: concatenating, in order, the
tokens of `generateFingerprint([m])` yields exactly `m` with every
`0x`-prefixed 40-hex-digit address substring replaced by `_address_`. -/
theorem generateFingerprint_single_recovers_text (m : Str) :
    generateFingerprint [MsgInput.str m] = .ok (tokenize m) ∧
    (tokenize m).flatten = replaceAddr m :=
  ⟨rfl, tokenize_flatten m⟩

theorem mem_map_toWords {ms : List MsgInput} {w : Fingerprint} :
    w ∈ ms.map toWords ↔ ∃ m ∈ ms, toWords m = w := by
  simp

/-- C5: `generateFingerprint` fails with `EmptyInput` exactly on the empty
input list, with `LengthMismatch` exactly on two or more inputs whose token
sequences do not all have the same length, and succeeds otherwise. -/
theorem generateFingerprint_failure_characterization (ms : List MsgInput) :
    (generateFingerprint ms = .error .EmptyInput ↔ ms = []) ∧
    (generateFingerprint ms = .error .LengthMismatch ↔
      2 ≤ ms.length ∧
        ∃ m1 ∈ ms, ∃ m2 ∈ ms, (toWords m1).length ≠ (toWords m2).length) ∧
    ((generateFingerprint ms).isOk = true ↔
      ms ≠ [] ∧ ∀ m1 ∈ ms, ∀ m2 ∈ ms, (toWords m1).length = (toWords m2).length) := by
  match ms with
  | [] =>
    refine ⟨by simp [generateFingerprint], by simp [generateFingerprint], ?_⟩
    simp [generateFingerprint, Except.isOk, Except.toBool]
  | [m] =>
    refine ⟨by simp [generateFingerprint], ?_, ?_⟩
    · constructor
      · intro h
        simp [generateFingerprint] at h
      · rintro ⟨h2, -⟩
        simp at h2
    · constructor
      · intro _
        refine ⟨by simp, ?_⟩
        intro m1 h1 m2 h2
        simp at h1 h2
        rw [h1, h2]
      · intro _
        simp [generateFingerprint, Except.isOk, Except.toBool]
  | m0 :: m1 :: rest =>
    have hmem0 : m0 ∈ m0 :: m1 :: rest := List.mem_cons_self _ _
    have hany : ((m0 :: m1 :: rest).map toWords).any
          (fun words => words.length != (toWords m0).length) = true ↔
        ∃ m ∈ m0 :: m1 :: rest, (toWords m).length ≠ (toWords m0).length := by
      simp [List.any_map, Function.comp]
    have hbridge : (∃ m ∈ m0 :: m1 :: rest, (toWords m).length ≠ (toWords m0).length) ↔
        ∃ a ∈ m0 :: m1 :: rest, ∃ b ∈ m0 :: m1 :: rest,
          (toWords a).length ≠ (toWords b).length := by
      constructor
      · rintro ⟨m, hm, hne⟩
        exact ⟨m, hm, m0, hmem0, hne⟩
      · rintro ⟨a, ha, b, hb, hab⟩
        by_cases hA : (toWords a).length = (toWords m0).length
        · exact ⟨b, hb, fun hB => hab (hA.trans hB.symm)⟩
        · exact ⟨a, ha, hA⟩
    by_cases hc : ∃ m ∈ m0 :: m1 :: rest, (toWords m).length ≠ (toWords m0).length
    · have heq : generateFingerprint (m0 :: m1 :: rest) = .error .LengthMismatch := by
        simp only [generateFingerprint, List.map_cons]
        rw [if_pos]
        exact (by simpa [List.any_map, Function.comp] using hc)
      refine ⟨by simp [heq],
        ⟨fun _ => ⟨by simp only [List.length_cons]; omega, hbridge.mp hc⟩, fun _ => heq⟩, ?_⟩
      constructor
      · intro h
        rw [heq] at h
        simp [Except.isOk, Except.toBool] at h
      · rintro ⟨-, hall⟩
        obtain ⟨m, hm, hne⟩ := hc
        exact absurd (hall m hm m0 hmem0) hne
    · have heq : ∃ f, generateFingerprint (m0 :: m1 :: rest) = .ok f := by
        simp only [generateFingerprint, List.map_cons]
        rw [if_neg]
        · exact ⟨_, rfl⟩
        · simpa [List.any_map, Function.comp] using hc
      obtain ⟨f, heq⟩ := heq
      push_neg at hc
      refine ⟨by simp [heq], ⟨?_, ?_⟩, ?_⟩
      · intro h
        rw [heq] at h
        exact absurd h (by simp)
      · rintro ⟨-, hpair⟩
        obtain ⟨m, hm, hne⟩ := hbridge.mpr hpair
        exact absurd (hc m hm) hne
      · constructor
        · intro _
          refine ⟨by simp, ?_⟩
          intro a ha b hb
          rw [hc a ha, hc b hb]
        · intro _
          rw [heq]
          simp [Except.isOk, Except.toBool]

/-- C5 witness: concrete instances of each characterization. -/
theorem generateFingerprint_failure_characterization_spot :
    generateFingerprint [] = .error .EmptyInput ∧
    generateFingerprint [MsgInput.fp [[]], MsgInput.fp []] = .error .LengthMismatch ∧
    (generateFingerprint [MsgInput.fp [[]], MsgInput.fp [[]]]).isOk = true := by
  refine ⟨(generateFingerprint_failure_characterization []).1.mpr rfl, ?_, ?_⟩
  · exact (generateFingerprint_failure_characterization
      [MsgInput.fp [[]], MsgInput.fp []]).2.1.mpr
      ⟨by decide, MsgInput.fp [[]], by decide, MsgInput.fp [], by decide, by decide⟩
  · exact (generateFingerprint_failure_characterization
      [MsgInput.fp [[]], MsgInput.fp [[]]]).2.2.mpr
      ⟨by decide, by decide⟩

theorem compareFingerprint_eq_true_iff {f1 f2 : Fingerprint}
    (hlen : f1.length = f2.length) :
    compareFingerprint f1 f2 = true ↔
      ∀ i < f1.length, f1.getD i [] = nonceTok ∨ f2.getD i [] = nonceTok ∨
        f1.getD i [] = f2.getD i [] := by
  simp only [compareFingerprint, hlen, List.all_eq_true, bne_self_eq_false,
    Bool.false_eq_true, if_false, List.mem_range, Bool.or_eq_true, beq_iff_eq]
  constructor
  · intro h i hi
    rcases h i hi with h1 | h1
    · rcases h1 with h2 | h2
      exacts [Or.inl h2, Or.inr (Or.inl h2)]
    · exact Or.inr (Or.inr h1)
  · intro h i hi
    rcases h i hi with h1 | h1 | h1
    exacts [Or.inl (Or.inl h1), Or.inl (Or.inr h1), Or.inr h1]

/-- C7: `compareFingerprint` is monotone under `_nonce_` masking of the
second argument: masking any subset of positions with `_nonce_` keeps a
true comparison true, and some false comparison becomes true under
masking. -/
theorem compareFingerprint_nonce_monotone :
    (∀ a b bm : Fingerprint, a.length = b.length →
      compareFingerprint a b = true →
      bm.length = b.length →
      (∀ i < b.length, bm.getD i [] = b.getD i [] ∨ bm.getD i [] = nonceTok) →
      compareFingerprint a bm = true) ∧
    (∃ a b bm : Fingerprint, a.length = b.length ∧ bm.length = b.length ∧
      (∀ i < b.length, bm.getD i [] = b.getD i [] ∨ bm.getD i [] = nonceTok) ∧
      compareFingerprint a b = false ∧ compareFingerprint a bm = true) := by
  constructor
  · intro a b bm hab htrue hmb hmask
    rw [compareFingerprint_eq_true_iff (hab.trans hmb.symm)]
    rw [compareFingerprint_eq_true_iff hab] at htrue
    intro i hi
    rcases hmask i (hab ▸ hi) with hsame | hnonce
    · rw [hsame]
      exact htrue i hi
    · exact Or.inr (Or.inl hnonce)
  · refine ⟨[['x']], [['y']], [nonceTok], rfl, rfl, ?_, by decide, by decide⟩
    intro i hi
    simp only [List.length_cons, List.length_nil] at hi
    obtain rfl : i = 0 := Nat.lt_one_iff.mp hi
    exact Or.inr rfl

/-- C7 witness: the monotone direction applied at a concrete instance. -/
theorem compareFingerprint_nonce_monotone_spot :
    compareFingerprint [['a'], ['b']] [['a'], nonceTok] = true :=
  compareFingerprint_nonce_monotone.1 [['a'], ['b']] [['a'], ['b']] [['a'], nonceTok]
    rfl (by decide) rfl
    (by
      intro i hi
      simp only [List.length_cons, List.length_nil] at hi
      interval_cases i <;> simp)

theorem generateFingerprint_single_str (m : Str) :
    generateFingerprint [MsgInput.str m] = .ok (tokenize m) := rfl

/-- C2: `createMessageInfo` never fails; when the stored global fingerprint
of the domain has a token count different from the token count of the new
message, the `LengthMismatch` of the two-input attempt is caught and the
returned `MessageInfo` carries the literal single-message fingerprint,
equal to `generateFingerprint` applied to the message text alone. -/
theorem createMessageInfo_never_fails (msg : MsgRequest) (gf : GlobalFPs) (now : Nat) :
    (createMessageInfo msg gf now).isOk = true ∧
    (∀ g, mapGet gf msg.domain = some g →
      g.length ≠ (tokenize msg.message).length →
      createMessageInfo msg gf now =
        .ok { address := msg.address, message := msg.message, createdAt := now,
              domain := msg.domain, web3Name := msg.web3Name,
              fingerprint := tokenize msg.message } ∧
      generateFingerprint [MsgInput.str msg.message] = .ok (tokenize msg.message)) := by
  constructor
  · cases hg : mapGet gf msg.domain with
    | none =>
      simp [createMessageInfo, hg, generateFingerprint_single_str, Except.isOk, Except.toBool]
    | some g =>
      cases hgen : generateFingerprint [MsgInput.str msg.message, MsgInput.fp g] with
      | ok f =>
        simp [createMessageInfo, hg, hgen, Except.isOk, Except.toBool]
      | error e =>
        simp [createMessageInfo, hg, hgen, generateFingerprint_single_str,
          Except.isOk, Except.toBool, Except.map]
  · intro g hg hne
    have hgen : generateFingerprint [MsgInput.str msg.message, MsgInput.fp g] =
        .error .LengthMismatch := by
      simp only [generateFingerprint, List.map_cons, List.map_nil, toWords]
      rw [if_pos]
      simp [bne_iff_ne, hne]
    refine ⟨?_, rfl⟩
    simp [createMessageInfo, hg, hgen, generateFingerprint_single_str, Except.map]

/-- C2 witness: a concrete domain with a stored one-token global
fingerprint and a three-token message. -/
theorem createMessageInfo_never_fails_spot :
    createMessageInfo
        ⟨"0xabc".toList, "hello web3 world".toList, "d.com".toList, "d".toList⟩
        [("d.com".toList, ["x".toList])] 0 =
      .ok { address := "0xabc".toList, message := "hello web3 world".toList,
            createdAt := 0, domain := "d.com".toList, web3Name := "d".toList,
            fingerprint := tokenize "hello web3 world".toList } := by
  have hra : replaceAddr "hello web3 world".toList = "hello web3 world".toList := by
    simp [replaceAddr]
  have ht : tokenize "hello web3 world".toList =
      ["hello".toList, " ".toList, "web3".toList, " ".toList, "world".toList] := by
    simp only [tokenize, hra]
    decide
  exact ((createMessageInfo_never_fails
      ⟨"0xabc".toList, "hello web3 world".toList, "d.com".toList, "d".toList⟩
      [("d.com".toList, ["x".toList])] 0).2
    ["x".toList] (by decide) (by rw [ht]; decide)).1

theorem checkMessage_decomposition (info : MessageInfo) (sm : SignedMessages)
    (gf : GlobalFPs) :
    checkMessageBeforeSign info sm gf =
      phishingVerdict info sm gf ++
        (if nonceInMsgOf info sm gf then [] else [replayFinding]) := by
  unfold checkMessageBeforeSign phishingVerdict dangerVictims
  cases hget : mapGet sm info.address with
  | none =>
    by_cases hd : domainInMsgOf info <;>
      by_cases hs : similarDomainsOf info gf = [] <;>
        cases hn : nonceInMsgOf info sm gf <;>
          simp [hget, hd, hs, hn, List.length_pos, List.dropLast]
  | some hist =>
    by_cases hv : victimDomainsOf info hist = [] <;>
      by_cases hd : domainInMsgOf info <;>
        by_cases hs : similarDomainsOf info gf = [] <;>
          cases hn : nonceInMsgOf info sm gf <;>
            simp [hget, hd, hs, hv, hn, List.length_pos, List.dropLast]

/-- C1: the assessment keeps at most one finding titled Phishing Attack,
and it is exactly the highest-severity triggered one: danger when the
signer has local history with a matching other domain, else warning when a
matching other domain exists in the global table, else info when the
domain does not occur case-insensitively in the message; lower-severity
candidates are removed from the list. -/
theorem checkMessage_phishing_supersede (info : MessageInfo) (sm : SignedMessages)
    (gf : GlobalFPs) :
    ((checkMessageBeforeSign info sm gf).filter
        (fun r => r.title == "Phishing Attack".toList)).length ≤ 1 ∧
    (checkMessageBeforeSign info sm gf).filter
        (fun r => r.title == "Phishing Attack".toList) =
      phishingVerdict info sm gf := by
  have h1 : (phishingVerdict info sm gf).filter
      (fun r => r.title == "Phishing Attack".toList) = phishingVerdict info sm gf := by
    unfold phishingVerdict
    split_ifs <;>
      simp [dangerPhishingFinding, warningPhishingFinding, infoPhishingFinding]
  have h2 : ((if nonceInMsgOf info sm gf then ([] : List RiskFinding)
        else [replayFinding]).filter
      (fun r => r.title == "Phishing Attack".toList)) = [] := by
    cases nonceInMsgOf info sm gf <;> rfl
  have hfilter : (checkMessageBeforeSign info sm gf).filter
      (fun r => r.title == "Phishing Attack".toList) = phishingVerdict info sm gf := by
    rw [checkMessage_decomposition info sm gf, List.filter_append, h1, h2,
      List.append_nil]
  refine ⟨?_, hfilter⟩
  rw [hfilter]
  unfold phishingVerdict
  split_ifs <;> simp

theorem mapGet_eq_some_of_mem_keys {α : Type} {l : List (Str × α)} {k : Str}
    (h : k ∈ l.map Prod.fst) : ∃ v, mapGet l k = some v := by
  induction l with
  | nil => simp at h
  | cons p rest ih =>
    obtain ⟨k', v'⟩ := p
    by_cases hk : k' = k
    · exact ⟨v', by simp [mapGet, hk]⟩
    · have hmem : k ∈ rest.map Prod.fst := by
        simp only [List.map_cons, List.mem_cons] at h
        rcases h with h | h
        · exact absurd h.symm hk
        · exact h
      obtain ⟨v, hv⟩ := ih hmem
      exact ⟨v, by simp [mapGet, hk, hv]⟩

theorem mem_keys_of_similarDomains {info : MessageInfo} {gf : GlobalFPs}
    {d : Str} (h : d ∈ similarDomainsOf info gf) : d ∈ gf.map Prod.fst := by
  unfold similarDomainsOf at h
  obtain ⟨p, hp, rfl⟩ := List.mem_map.mp h
  exact List.mem_map_of_mem _ (List.mem_of_mem_filter hp)

/-- C3: the info-severity Replay Attack finding is appended, at the end of
the list, exactly when `nonceInMsg` is false, and `nonceInMsg` is: presence
of `_nonce_` in the message fingerprint when the signer address has a local
fingerprint entry for this exact domain; otherwise inherited from the
global fingerprint of the first matching similar domain; otherwise
false. -/
theorem checkMessage_replay_characterization (info : MessageInfo)
    (sm : SignedMessages) (gf : GlobalFPs) :
    ((checkMessageBeforeSign info sm gf).filter
        (fun r => r.title == "Replay Attack".toList) =
      if nonceInMsgOf info sm gf then [] else [replayFinding]) ∧
    (nonceInMsgOf info sm gf = false →
      (checkMessageBeforeSign info sm gf).getLast? = some replayFinding) ∧
    (∀ hist, mapGet sm info.address = some hist →
      ∀ lf, mapGet hist.localFingerprints info.domain = some lf →
      nonceInMsgOf info sm gf =
        info.fingerprint.any (fun item => item == nonceTok)) ∧
    ((∀ hist, mapGet sm info.address = some hist →
        mapGet hist.localFingerprints info.domain = none) →
      ∀ d ds, similarDomainsOf info gf = d :: ds →
      ∃ fd, mapGet gf d = some fd ∧
        nonceInMsgOf info sm gf = fd.any (fun item => item == nonceTok)) ∧
    ((∀ hist, mapGet sm info.address = some hist →
        mapGet hist.localFingerprints info.domain = none) →
      similarDomainsOf info gf = [] →
      nonceInMsgOf info sm gf = false) := by
  refine ⟨?_, ?_, ?_, ?_, ?_⟩
  · rw [checkMessage_decomposition info sm gf, List.filter_append]
    have h1 : (phishingVerdict info sm gf).filter
        (fun r => r.title == "Replay Attack".toList) = [] := by
      unfold phishingVerdict
      split_ifs <;>
        simp [dangerPhishingFinding, warningPhishingFinding, infoPhishingFinding]
    rw [h1, List.nil_append]
    cases nonceInMsgOf info sm gf <;> rfl
  · intro h
    rw [checkMessage_decomposition info sm gf, h, if_neg (by simp)]
    exact List.getLast?_concat _
  · intro hist hget lf hlf
    simp [nonceInMsgOf, hget, hlf]
  · intro hnone d ds hsim
    have hng : ∃ fd, mapGet gf d = some fd ∧
        nonceFromGlobal info gf = fd.any (fun item => item == nonceTok) := by
      obtain ⟨fd, hfd⟩ := mapGet_eq_some_of_mem_keys
        (mem_keys_of_similarDomains (by rw [hsim]; exact List.mem_cons_self d ds))
      exact ⟨fd, hfd, by simp [nonceFromGlobal, hsim, hfd]⟩
    obtain ⟨fd, hfd, hval⟩ := hng
    cases hget : mapGet sm info.address with
    | none => exact ⟨fd, hfd, by simp [nonceInMsgOf, hget, hval]⟩
    | some hist =>
      exact ⟨fd, hfd, by simp [nonceInMsgOf, hget, hnone hist hget, hval]⟩
  · intro hnone hsim
    cases hget : mapGet sm info.address with
    | none => simp [nonceInMsgOf, hget, nonceFromGlobal, hsim]
    | some hist => simp [nonceInMsgOf, hget, hnone hist hget, nonceFromGlobal, hsim]

/-- C3 witness: the local-entry case at a concrete input where the
fingerprint contains the nonce placeholder. -/
theorem checkMessage_replay_characterization_spot :
    nonceInMsgOf
        ⟨"a".toList, "m".toList, 0, "d".toList, "w".toList, [nonceTok]⟩
        [("a".toList, ⟨[("d".toList, [nonceTok])], []⟩)] [] = true := by
  have h := (checkMessage_replay_characterization
      ⟨"a".toList, "m".toList, 0, "d".toList, "w".toList, [nonceTok]⟩
      [("a".toList, ⟨[("d".toList, [nonceTok])], []⟩)] []).2.2.1
    ⟨[("d".toList, [nonceTok])], []⟩ (by decide) [nonceTok] (by decide)
  rw [h]
  decide

/-- C9: for the message about example.com with an anti-phishing domain but
no prior history, the assessment of the created MessageInfo returns
exactly one finding, the info-severity Replay Attack finding, and no
Phishing Attack finding. -/
theorem scenario_example_com_replay_only :
    ∃ info, createMessageInfo
        ⟨"0xabc".toList, "Sign in to example.com with nonce abc123".toList,
          "example.com".toList, "example".toList⟩ [] 0 = .ok info ∧
      checkMessageBeforeSign info [] [] = [replayFinding] :=
  ⟨_, rfl, by decide⟩

theorem strContains_nil (hay : Str) : strContains [] hay = true := by
  cases hay <;> rfl

/-- C10: with an empty domain the domain-absence check never fires (the
empty string occurs in every message), so no info-severity Phishing Attack
finding is ever emitted, while warning- and danger-severity phishing
findings still can be. -/
theorem emptyDomain_no_info_phishing :
    (∀ (info : MessageInfo) (sm : SignedMessages) (gf : GlobalFPs),
      info.domain = [] →
      ∀ r ∈ checkMessageBeforeSign info sm gf,
        ¬(r.title = "Phishing Attack".toList ∧ r.severity = "info".toList)) ∧
    (∃ (info : MessageInfo) (sm : SignedMessages) (gf : GlobalFPs),
      info.domain = [] ∧
      ∃ r ∈ checkMessageBeforeSign info sm gf,
        r.title = "Phishing Attack".toList ∧ r.severity = "warning".toList) ∧
    (∃ (info : MessageInfo) (sm : SignedMessages) (gf : GlobalFPs),
      info.domain = [] ∧
      ∃ r ∈ checkMessageBeforeSign info sm gf,
        r.title = "Phishing Attack".toList ∧ r.severity = "danger".toList) := by
  refine ⟨?_, ?_, ?_⟩
  · intro info sm gf hdom r hr
    have hd : domainInMsgOf info = true := by
      rw [domainInMsgOf, hdom, List.map_nil]
      exact strContains_nil _
    rw [checkMessage_decomposition info sm gf] at hr
    rcases List.mem_append.mp hr with hmem | hmem
    · unfold phishingVerdict at hmem
      split_ifs at hmem with h1 h2
      · rw [List.mem_singleton.mp hmem]
        rintro ⟨-, hsev⟩
        simp only [dangerPhishingFinding] at hsev
        exact absurd hsev (by decide)
      · rw [List.mem_singleton.mp hmem]
        rintro ⟨-, hsev⟩
        simp only [warningPhishingFinding] at hsev
        exact absurd hsev (by decide)
      · exact absurd hmem (List.not_mem_nil r)
    · have : r = replayFinding := by
        cases hn : nonceInMsgOf info sm gf <;> rw [hn] at hmem <;> simp_all
      rw [this]
      rintro ⟨htitle, -⟩
      exact absurd htitle (by decide)
  · exact ⟨⟨"a".toList, "m".toList, 0, [], "w".toList, ["m".toList]⟩, [],
      [("site.com".toList, ["m".toList])],
      rfl, warningPhishingFinding ["site.com".toList], by decide, by decide, by decide⟩
  · exact ⟨⟨"a".toList, "m".toList, 0, [], "w".toList, ["m".toList]⟩,
      [("a".toList, ⟨[("bank.com".toList, ["m".toList])], []⟩)], [],
      rfl, dangerPhishingFinding [] ["bank.com".toList], by decide, by decide, by decide⟩

/-- C10 witness: the universal part applied to the replay finding of a
concrete empty-domain assessment. -/
theorem emptyDomain_no_info_phishing_spot :
    ¬(replayFinding.title = "Phishing Attack".toList ∧
      replayFinding.severity = "info".toList) :=
  emptyDomain_no_info_phishing.1
    ⟨"a".toList, "m".toList, 0, [], "w".toList, ["m".toList]⟩ [] [] rfl
    replayFinding (by decide)

theorem range_map_getD (n i : Nat) (g : Nat → Token) (hi : i < n) :
    ((List.range n).map g).getD i [] = g i := by
  have hi' : i < ((List.range n).map g).length := by simpa using hi
  rw [List.getD_eq_getElem _ _ hi', List.getElem_map, List.getElem_range]

/-- C4: on two or more inputs with equal token counts,
`generateFingerprint` succeeds with a fingerprint of that length whose
token at each position is the common token when all inputs agree there and
`_nonce_` otherwise; for exactly two inputs differing at exactly one
position the result is the first token sequence with that position set to
`_nonce_`. -/
theorem generateFingerprint_multi_inference (m0 m1 : MsgInput)
    (rest : List MsgInput) (n : Nat)
    (hlen : ∀ m ∈ m0 :: m1 :: rest, (toWords m).length = n) :
    ∃ f, generateFingerprint (m0 :: m1 :: rest) = .ok f ∧ f.length = n ∧
      (∀ i, i < n →
        ((∀ m ∈ m0 :: m1 :: rest,
            (toWords m).getD i [] = (toWords m0).getD i []) →
          f.getD i [] = (toWords m0).getD i []) ∧
        ((¬ ∀ m ∈ m0 :: m1 :: rest,
            (toWords m).getD i [] = (toWords m0).getD i []) →
          f.getD i [] = nonceTok)) ∧
      (rest = [] → ∀ j, j < n →
        (toWords m0).getD j [] ≠ (toWords m1).getD j [] →
        (∀ i, i < n → i ≠ j →
          (toWords m0).getD i [] = (toWords m1).getD i []) →
        f = (toWords m0).set j nonceTok) := by
  have h0 : (toWords m0).length = n := hlen m0 (by simp)
  have hanyf : ((toWords m0 :: toWords m1 :: rest.map toWords).any
      (fun words => words.length != (toWords m0).length)) = false := by
    rw [List.any_eq_false]
    intro w hw
    simp only [List.mem_cons, List.mem_map] at hw
    rcases hw with rfl | rfl | ⟨m, hm, rfl⟩
    · simp
    · simp [hlen m1 (by simp), h0]
    · simp [hlen m (by simp [hm]), h0]
  have hgen : generateFingerprint (m0 :: m1 :: rest) =
      .ok ((List.range (toWords m0).length).map (fun i =>
        if (toWords m0 :: toWords m1 :: rest.map toWords).all
            (fun words => words.getD i [] == (toWords m0).getD i []) then
          (toWords m0).getD i []
        else nonceTok)) := by
    simp only [generateFingerprint, List.map_cons]
    rw [if_neg (by simp [hanyf])]
  have hcond_iff : ∀ i, ((toWords m0 :: toWords m1 :: rest.map toWords).all
      (fun words => words.getD i [] == (toWords m0).getD i []) = true) ↔
      ∀ m ∈ m0 :: m1 :: rest, (toWords m).getD i [] = (toWords m0).getD i [] := by
    intro i
    rw [List.all_eq_true]
    constructor
    · intro h m hm
      have hw : toWords m ∈ toWords m0 :: toWords m1 :: rest.map toWords := by
        simp only [List.mem_cons, List.mem_map]
        rcases List.mem_cons.mp hm with rfl | hm1
        · exact Or.inl rfl
        · rcases List.mem_cons.mp hm1 with rfl | hm2
          · exact Or.inr (Or.inl rfl)
          · exact Or.inr (Or.inr ⟨m, hm2, rfl⟩)
      simpa using h _ hw
    · intro h w hw
      simp only [List.mem_cons, List.mem_map] at hw
      rcases hw with rfl | rfl | ⟨m, hm, rfl⟩
      · simp
      · simpa using h m1 (by simp)
      · simpa using h m (by simp [hm])
  set f := (List.range (toWords m0).length).map (fun i =>
    if (toWords m0 :: toWords m1 :: rest.map toWords).all
        (fun words => words.getD i [] == (toWords m0).getD i []) then
      (toWords m0).getD i []
    else nonceTok) with hf
  have hflen : f.length = n := by
    rw [hf]
    simp [h0]
  have hfi : ∀ i, i < n →
      f.getD i [] = (if (toWords m0 :: toWords m1 :: rest.map toWords).all
          (fun words => words.getD i [] == (toWords m0).getD i []) then
        (toWords m0).getD i []
      else nonceTok) := by
    intro i hi
    rw [hf]
    exact range_map_getD _ i _ (h0 ▸ hi)
  refine ⟨f, hgen, hflen, ?_, ?_⟩
  · intro i hi
    constructor
    · intro hag
      rw [hfi i hi, if_pos ((hcond_iff i).mpr hag)]
    · intro hnag
      rw [hfi i hi, if_neg (fun h => hnag ((hcond_iff i).mp h))]
  · rintro rfl j hj hne hagree
    have hjf : j < f.length := hflen ▸ hj
    have hj0 : j < (toWords m0).length := h0 ▸ hj
    apply List.ext_getElem
    · rw [hflen, List.length_set, h0]
    · intro i hi1 hi2
      have hi : i < n := hflen ▸ hi1
      have hi0 : i < (toWords m0).length := h0 ▸ hi
      by_cases hij : i = j
      · subst hij
        have hnall : ¬ ∀ m ∈ m0 :: m1 :: ([] : List MsgInput),
            (toWords m).getD i [] = (toWords m0).getD i [] := by
          intro hall
          exact hne ((hall m1 (by simp)).symm)
        rw [← List.getD_eq_getElem f [] hi1, hfi i hi,
          if_neg (fun h => hnall ((hcond_iff i).mp h)), List.getElem_set_self]
      · have hall : ∀ m ∈ m0 :: m1 :: ([] : List MsgInput),
            (toWords m).getD i [] = (toWords m0).getD i [] := by
          intro m hm
          rcases List.mem_cons.mp hm with rfl | hm1
          · rfl
          · rcases List.mem_cons.mp hm1 with rfl | hm2
            · exact (hagree i hi hij).symm
            · exact absurd hm2 (List.not_mem_nil m)
        rw [← List.getD_eq_getElem f [] hi1, hfi i hi,
          if_pos ((hcond_iff i).mpr hall),
          List.getElem_set_ne (fun h => hij h.symm),
          List.getD_eq_getElem _ [] hi0]

/-- C4 witness: two three-token messages differing in the last word. -/
theorem generateFingerprint_multi_inference_spot :
    generateFingerprint [MsgInput.str ['a', ' ', '1'], MsgInput.str ['a', ' ', '2']] =
      .ok [['a'], [' '], nonceTok] := by
  have h1 : tokenize ['a', ' ', '1'] = [['a'], [' '], ['1']] := by
    have hr : replaceAddr ['a', ' ', '1'] = ['a', ' ', '1'] := by simp [replaceAddr]
    simp only [tokenize, hr]
    decide
  have h2 : tokenize ['a', ' ', '2'] = [['a'], [' '], ['2']] := by
    have hr : replaceAddr ['a', ' ', '2'] = ['a', ' ', '2'] := by simp [replaceAddr]
    simp only [tokenize, hr]
    decide
  obtain ⟨f, hgen, -, -, hset⟩ := generateFingerprint_multi_inference
    (MsgInput.str ['a', ' ', '1']) (MsgInput.str ['a', ' ', '2']) [] 3
    (by
      intro m hm
      rcases List.mem_pair.mp hm with rfl | rfl
      · simp only [toWords, h1]
        rfl
      · simp only [toWords, h2]
        rfl)
  have hfeq : f = (toWords (MsgInput.str ['a', ' ', '1'])).set 2 nonceTok :=
    hset rfl 2 (by omega)
      (by
        simp only [toWords, h1, h2]
        decide)
      (by
        intro i hi hij
        simp only [toWords, h1, h2]
        interval_cases i <;> simp_all)
  rw [hgen, hfeq]
  simp only [toWords, h1]
  rfl
